import Mathlib

/-!
Verification development for the true-colors context-aware color registry.

The definitions below are a shallow embedding of the TypeScript sources:
  - colorParser.ts        (parseColorValue)
  - tailwindParser.ts     (resolveTailwindColor, buildNormalizedMap and its
                           module-level cache)
  - colorDecorationProvider.ts (scanCssContentForColors, getColorForMode,
                           rebuildGlobalVariablesForMode, getContextualColorsMap)

Modelling conventions:
  - JavaScript Map objects are modelled as insertion-ordered association lists;
    `Map.set` on an existing key updates the value in place and keeps the
    key's original position, otherwise it appends (function `setJs`).
  - JavaScript regular expressions of the sources are implemented directly as
    deterministic character-list scanners.  Every character class used by the
    sources (digits, word characters, whitespace, single literal characters)
    is pairwise disjoint from its neighbours in the patterns, so greedy
    matching never needs backtracking and the scanners are exact.
  - JavaScript numbers used as alpha values are modelled exactly by rationals,
    plus an explicit NaN value (`JsNum.nan`); comparisons with NaN are false,
    as in JavaScript.  Brace depth is an integer with the explicit
    `Math.max 0` clamp of the source.
  - The static Tailwind palette table (tailwindColors.ts, not part of the
    scanned sources) is a parameter of `resolveTailwindColor`.
-/

namespace TrueColors

/-- JavaScript whitespace as matched by the regex class backslash-s. -/
def isJsWhitespace (c : Char) : Bool :=
  c = ' ' || c = '\t' || c = '\n' || c = '\r' || c = '\x0b' || c = '\x0c' ||
  c.val = 0xa0 || c.val = 0x1680 || (0x2000 ≤ c.val && c.val ≤ 0x200a) ||
  c.val = 0x2028 || c.val = 0x2029 || c.val = 0x202f || c.val = 0x205f ||
  c.val = 0x3000 || c.val = 0xfeff

/-- The regex character class of word characters plus dash, as in [backslash-w-]. -/
def isWordDash (c : Char) : Bool :=
  c.isAlphanum || c = '_' || c = '-'

/-- String.prototype.trim on a character list. -/
def jsTrimList (cs : List Char) : List Char :=
  ((cs.dropWhile isJsWhitespace).reverse.dropWhile isJsWhitespace).reverse

/-- Numeric value of a digit string, as computed by parseInt(s, 10). -/
def natOfDigits (cs : List Char) : ℕ :=
  cs.foldl (fun a c => a * 10 + (c.toNat - 48)) 0

/-- A JavaScript number that is either an exact rational or NaN. -/
inductive JsNum where
  | nan : JsNum
  | val (q : ℚ) : JsNum
deriving DecidableEq, Repr

/-- ParsedColor of colorParser.ts.  `alpha = none` models the absent
(undefined) alpha; `some JsNum.nan` models an alpha that parseFloat turned
into NaN. -/
structure ParsedColor where
  red : ℕ
  green : ℕ
  blue : ℕ
  alpha : Option JsNum
  originalText : String
deriving DecidableEq, Repr

/-- parseFloat applied to a non-empty token drawn from the class [digits.]:
the longest numeric prefix is converted, a token with no digit before the
second dot (such as a lone dot) yields NaN. -/
def parseFloatToken (cs : List Char) : JsNum :=
  let ip := cs.takeWhile Char.isDigit
  let rest := cs.dropWhile Char.isDigit
  if ip = [] then
    match rest with
    | '.' :: r =>
      let fp := r.takeWhile Char.isDigit
      if fp = [] then JsNum.nan
      else JsNum.val ((natOfDigits fp : ℚ) / (10 : ℚ) ^ fp.length)
    | _ => JsNum.nan
  else
    match rest with
    | '.' :: r =>
      let fp := r.takeWhile Char.isDigit
      JsNum.val ((natOfDigits ip : ℚ) + (natOfDigits fp : ℚ) / (10 : ℚ) ^ fp.length)
    | _ => JsNum.val (natOfDigits ip : ℚ)

/-- parseColorValue of colorParser.ts: the anchored regex
three digit groups separated by whitespace, an optional slash-alpha group of
digits and dots, surrounding whitespace allowed and nothing else; parseInt on
the components, parseFloat on the alpha token, then the range checks of the
source (in which a NaN alpha passes both comparisons, as in JavaScript). -/
def parseColorValue (text : String) : Option ParsedColor :=
  let cs := text.toList
  let t0 := cs.dropWhile isJsWhitespace
  let d1 := t0.takeWhile Char.isDigit
  let r1 := t0.dropWhile Char.isDigit
  if d1 = [] then none else
  let w1 := r1.takeWhile isJsWhitespace
  let r2 := r1.dropWhile isJsWhitespace
  if w1 = [] then none else
  let d2 := r2.takeWhile Char.isDigit
  let r3 := r2.dropWhile Char.isDigit
  if d2 = [] then none else
  let w2 := r3.takeWhile isJsWhitespace
  let r4 := r3.dropWhile isJsWhitespace
  if w2 = [] then none else
  let d3 := r4.takeWhile Char.isDigit
  let r5 := r4.dropWhile Char.isDigit
  if d3 = [] then none else
  let r6 := r5.dropWhile isJsWhitespace
  let red := natOfDigits d1
  let green := natOfDigits d2
  let blue := natOfDigits d3
  let finish : Option JsNum → Option ParsedColor := fun alpha =>
    if red > 255 ∨ green > 255 ∨ blue > 255 then none
    else
      match alpha with
      | some (JsNum.val q) =>
        if q < 0 ∨ q > 1 then none
        else some ⟨red, green, blue, alpha, String.mk (jsTrimList cs)⟩
      | _ => some ⟨red, green, blue, alpha, String.mk (jsTrimList cs)⟩
  match r6 with
  | [] => finish none
  | c :: r7 =>
    if c = '/' then
      let r8 := r7.dropWhile isJsWhitespace
      let atok := r8.takeWhile (fun ch => ch.isDigit || ch = '.')
      let r9 := r8.dropWhile (fun ch => ch.isDigit || ch = '.')
      if atok = [] then none
      else if r9.dropWhile isJsWhitespace = [] then finish (some (parseFloatToken atok))
      else none
    else none

/-! Association lists with JavaScript Map semantics. -/

/-- Map.set: update in place when the key is present (keeping its position),
append otherwise. -/
def setJs {α : Type} : List (String × α) → String → α → List (String × α)
  | [], k, v => [(k, v)]
  | (k0, v0) :: rest, k, v =>
    if k0 = k then (k, v) :: rest else (k0, v0) :: setJs rest k v

/-- Map.get: the value at the first occurrence of the key. -/
def getJs {α : Type} : List (String × α) → String → Option α
  | [], _ => none
  | (k0, v) :: rest, k => if k0 = k then some v else getJs rest k

/-- Set.add: append unless already present. -/
def addJs (s : List String) (x : String) : List String :=
  if x ∈ s then s else s ++ [x]

/-- The keys of an association list, in order. -/
def keysOf {α : Type} (m : List (String × α)) : List String :=
  m.map Prod.fst

/-- Number of entries carrying a given key. -/
def countKey {α : Type} (m : List (String × α)) (k : String) : ℕ :=
  (m.filter (fun p => p.1 = k)).length

/-- Distinctness of the keys of an association list. -/
def nodupKeys {α : Type} (m : List (String × α)) : Prop :=
  (keysOf m).Nodup

instance {α : Type} (m : List (String × α)) : Decidable (nodupKeys m) := by
  unfold nodupKeys; infer_instance

/-! The Tailwind class resolver (tailwindParser.ts). -/

/-- One entry of the static Tailwind palette table. -/
structure TailwindColor where
  r : ℕ
  g : ℕ
  b : ℕ
deriving DecidableEq, Repr

/-- The static palette table tailwindColors, indexed by family then shade. -/
def TwPalette : Type := String → String → Option TailwindColor

/-- A JavaScript Map reference: object identity plus current contents.
In-place mutation changes `entries` but keeps `refId`; replacing the map
yields a fresh `refId`. -/
structure JsMapRef where
  refId : ℕ
  entries : List (String × ParsedColor)
deriving DecidableEq, Repr

/-- The module-level cache of tailwindParser.ts: `normalizedMapCache` and
`normalizedMapSource` (the source recorded by identity). -/
structure TwCache where
  cacheMap : Option (List (String × ParsedColor))
  cacheSource : Option ℕ
deriving DecidableEq, Repr

/-- The initial cache state: both module variables undefined. -/
def emptyTwCache : TwCache := ⟨none, none⟩

/-- Lowercase then replace every underscore by a dash, as in
s.toLowerCase().replace(underscore-global, dash). -/
def jsNormalize (s : String) : String :=
  String.mk ((s.toList.map Char.toLower).map (fun ch => if ch = '_' then '-' else ch))

/-- Whether a pattern is an initial segment of a character list. -/
def startsWithList : List Char → List Char → Bool
  | [], _ => true
  | _ :: _, [] => false
  | p :: ps, c :: cs => p = c && startsWithList ps cs

/-- String.prototype.startsWith, via the underlying character lists. -/
def strStartsWith (s pat : String) : Bool :=
  startsWithList pat.toList s.toList

/-- String.prototype.replace with a plain-string pattern: replace the first
occurrence only. -/
def replaceFirstAux : List Char → List Char → List Char → List Char
  | [], _, _ => []
  | c :: rest, pat, repl =>
    if startsWithList pat (c :: rest) then repl ++ (c :: rest).drop pat.length
    else c :: replaceFirstAux rest pat repl

/-- String.prototype.replace with a plain-string pattern, on Strings. -/
def replaceFirstSub (s pat repl : String) : String :=
  String.mk (replaceFirstAux s.toList pat.toList repl.toList)

/-- The body of buildNormalizedMap: strip a leading double dash, lowercase,
underscores to dashes, accumulate into a fresh map. -/
def normalizeEntries (entries : List (String × ParsedColor)) : List (String × ParsedColor) :=
  entries.foldl
    (fun n p =>
      let varName := if strStartsWith p.1 "--" then String.mk (p.1.toList.drop 2) else p.1
      setJs n (jsNormalize varName) p.2)
    []

/-- buildNormalizedMap of tailwindParser.ts: reuse the cached map when the
cached source is the very same Map object (identity comparison), otherwise
rebuild and update the cache. -/
def buildNormalizedMap (m : JsMapRef) (c : TwCache) :
    List (String × ParsedColor) × TwCache :=
  match c.cacheMap, c.cacheSource with
  | some nm, some src =>
    if src = m.refId then (nm, c)
    else
      let n := normalizeEntries m.entries
      (n, ⟨some n, some m.refId⟩)
  | _, _ =>
    let n := normalizeEntries m.entries
    (n, ⟨some n, some m.refId⟩)

/-- Split a color name at its last dash, as in
substring(0, lastIndexOf) and substring(lastIndexOf + 1). -/
def lastDashSplit (s : String) : Option (String × String) :=
  let r := s.toList.reverse
  let shadeRev := r.takeWhile (fun c => c ≠ '-')
  if shadeRev.length = r.length then none
  else some (String.mk ((r.drop (shadeRev.length + 1)).reverse), String.mk shadeRev.reverse)

/-- resolveTailwindColor of tailwindParser.ts, with the static palette table
as a parameter and the module-level cache threaded explicitly.  The five
lookup strategies in source order: exact registry key, txt- to text- alias,
normalized fuzzy map (through the identity-keyed cache), standard palette at
the last dash split, single-word family at shade 500. -/
def resolveTailwindColor (palette : TwPalette) (colorName : String) (m : JsMapRef)
    (cache : TwCache) : Option ParsedColor × TwCache :=
  match getJs m.entries ("--" ++ colorName) with
  | some c => (some c, cache)
  | none =>
    match
      (if strStartsWith colorName "txt-" then
        getJs m.entries ("--text-" ++ String.mk (colorName.toList.drop 4))
      else none) with
    | some c => (some c, cache)
    | none =>
      let built := buildNormalizedMap m cache
      let nc := jsNormalize colorName
      match (getJs built.1 nc).orElse (fun _ => getJs built.1 (replaceFirstSub nc "txt-" "text-")) with
      | some c => (some c, built.2)
      | none =>
        let pal4 : Option ParsedColor :=
          match lastDashSplit colorName with
          | some fs => (palette fs.1 fs.2).map (fun tc => ⟨tc.r, tc.g, tc.b, none, colorName⟩)
          | none => none
        match pal4 with
        | some c => (some c, built.2)
        | none =>
          match palette colorName "500" with
          | some tc => (some ⟨tc.r, tc.g, tc.b, none, colorName⟩, built.2)
          | none => (none, built.2)

/-- Cache-free reference version of the resolver, a pure function of the
palette, the color name and the registry contents. -/
def resolvePureAux (palette : TwPalette) (colorName : String)
    (entries : List (String × ParsedColor)) : Option ParsedColor :=
  match getJs entries ("--" ++ colorName) with
  | some c => some c
  | none =>
    match
      (if strStartsWith colorName "txt-" then
        getJs entries ("--text-" ++ String.mk (colorName.toList.drop 4))
      else none) with
    | some c => some c
    | none =>
      let nm := normalizeEntries entries
      let nc := jsNormalize colorName
      match (getJs nm nc).orElse (fun _ => getJs nm (replaceFirstSub nc "txt-" "text-")) with
      | some c => some c
      | none =>
        let pal4 : Option ParsedColor :=
          match lastDashSplit colorName with
          | some fs => (palette fs.1 fs.2).map (fun tc => ⟨tc.r, tc.g, tc.b, none, colorName⟩)
          | none => none
        match pal4 with
        | some c => some c
        | none =>
          match palette colorName "500" with
          | some tc => some ⟨tc.r, tc.g, tc.b, none, colorName⟩
          | none => none

/-! The context-aware scanner (colorDecorationProvider.ts). -/

/-- ColorWithContext of colorDecorationProvider.ts. -/
structure ColorWithContext where
  color : ParsedColor
  context : String
deriving DecidableEq, Repr

/-- The registry state of a ColorDecorationProvider instance: the three
fields touched by scanning and rebuilding. -/
structure ScanState where
  globalColorVariables : List (String × ParsedColor)
  contextualColorVariables : List (String × List (String × ColorWithContext))
  detectedContexts : List String
deriving DecidableEq, Repr

/-- The freshly constructed provider state: all three maps empty. -/
def emptyScanState : ScanState := ⟨[], [], []⟩

/-- String.prototype.split on the newline character. -/
def splitLinesAux : List Char → List Char → List (List Char)
  | acc, [] => [acc.reverse]
  | acc, c :: rest =>
    if c = '\n' then acc.reverse :: splitLinesAux [] rest
    else splitLinesAux (c :: acc) rest

/-- First match of the selector regex dot, word-dash run, whitespace run,
open brace: try every dot position from the left; the three character
classes involved are pairwise disjoint so the greedy match is exact. -/
def ctxSelectorName : List Char → Option String
  | [] => none
  | c :: rest =>
    if c = '.' then
      let w := rest.takeWhile isWordDash
      let r1 := rest.dropWhile isWordDash
      let r2 := r1.dropWhile isJsWhitespace
      if w ≠ [] ∧ r2.head? = some '\x7b' then some (String.mk w)
      else ctxSelectorName rest
    else ctxSelectorName rest

/-- One attempted match of the definition regex double dash, name, colon,
value, semicolon at the head of the list.  Returns the captured variable name
(with its sigil), the raw value text between the colon and the first
semicolon, and the remainder of the line after the semicolon. -/
def tryVarMatch (cs : List Char) : Option (String × List Char × List Char) :=
  match cs with
  | '-' :: '-' :: r1 =>
    let w := r1.takeWhile isWordDash
    let r2 := r1.dropWhile isWordDash
    if w = [] then none else
    let r3 := r2.dropWhile isJsWhitespace
    match r3 with
    | ':' :: r4 =>
      let body := r4.takeWhile (fun ch => ch ≠ ';')
      let r5 := r4.dropWhile (fun ch => ch ≠ ';')
      match r5 with
      | ';' :: rest =>
        if body = [] then none
        else some (String.mk ('-' :: '-' :: w), body, rest)
      | _ => none
    | _ => none
  | _ => none

/-- Repeated global-regex matching of the definition pattern along one line:
advance one character on failure, continue after the semicolon on success.
Each successful match consumes at least one character, so the line length is
sufficient fuel. -/
def lineDefsFuel : ℕ → List Char → List (String × List Char)
  | 0, _ => []
  | _, [] => []
  | Nat.succ fuel, c :: rest =>
    match tryVarMatch (c :: rest) with
    | some (name, body, remaining) => (name, body) :: lineDefsFuel fuel remaining
    | none => lineDefsFuel fuel rest

/-- All definition-regex matches of one line, in order. -/
def lineVarDefs (line : List Char) : List (String × List Char) :=
  lineDefsFuel line.length line

/-- Pop stack entries whose recorded open depth is at least the new depth. -/
def popWhileGE (d : ℤ) : List (String × ℤ) → List (String × ℤ)
  | [] => []
  | (n, dp) :: rest => if dp ≥ d then popWhileGE d rest else (n, dp) :: rest

/-- The close-brace loop: for each closing brace, clamp the depth at zero
with Math.max and pop the contexts opened at or above the new depth. -/
def closeSteps : ℕ → ℤ → List (String × ℤ) → ℤ × List (String × ℤ)
  | 0, d, s => (d, s)
  | Nat.succ k, d, s =>
    let d2 := max 0 (d - 1)
    closeSteps k d2 (popWhileGE d2 s)

/-- Brace bookkeeping of one line: add the opening braces, then run the
close-brace loop. -/
def depthUpd (line : List Char) (d : ℤ) (s : List (String × ℤ)) :
    ℤ × List (String × ℤ) :=
  closeSteps (line.count '\x7d') (d + line.count '\x7b') s

/-- The context attributed to definitions: top of the stack, or global. -/
def currentCtxOf (stack : List (String × ℤ)) : String :=
  match stack with
  | [] => "global"
  | (n, _) :: _ => n

/-- The running state of one scan pass: brace depth, context stack (head is
the top), the trace of successful registry insertions performed so far
(a ghost field recording each stored variable, context, color triple), and
the registry state. -/
structure ScanAcc where
  depth : ℤ
  stack : List (String × ℤ)
  trace : List (String × String × ParsedColor)
  st : ScanState
deriving Repr

/-- Processing of one definition-regex match: trim the value, parse it, and
on success store it under the current context (creating the per-variable
context map on first use) and update the flat global registry. -/
def scanLineInsert (ctx : String) (a : ScanAcc) (nv : String × List Char) : ScanAcc :=
  match parseColorValue (String.mk (jsTrimList nv.2)) with
  | none => a
  | some color =>
    let cvv := (getJs a.st.contextualColorVariables nv.1).getD []
    let cvv2 := setJs cvv ctx ⟨color, ctx⟩
    { a with
      trace := a.trace ++ [(nv.1, ctx, color)],
      st := { a.st with
        contextualColorVariables := setJs a.st.contextualColorVariables nv.1 cvv2,
        globalColorVariables := setJs a.st.globalColorVariables nv.1 color } }

/-- Context detection of one line: when the selector regex matches and the
line holds exactly one dot, record the context and push it with the current
depth. -/
def scanLinePush (line : List Char) (depth : ℤ) (stack : List (String × ℤ))
    (detected : List String) : (List (String × ℤ)) × List String :=
  match ctxSelectorName line with
  | some name =>
    if line.count '.' = 1 then ((name, depth) :: stack, addJs detected name)
    else (stack, detected)
  | none => (stack, detected)

/-- One line of scanCssContentForColors: detect a single-class selector and
push it, determine the active context, extract and store the definitions,
then update the brace depth and pop closed contexts. -/
def scanLine (a : ScanAcc) (line : List Char) : ScanAcc :=
  let pr := scanLinePush line a.depth a.stack a.st.detectedContexts
  let a1 : ScanAcc := { a with stack := pr.1, st := { a.st with detectedContexts := pr.2 } }
  let ctx := currentCtxOf pr.1
  let a2 := (lineVarDefs line).foldl (scanLineInsert ctx) a1
  let du := depthUpd line a.depth pr.1
  { a2 with depth := du.1, stack := du.2 }

/-- The line-by-line pass of scanCssContentForColors over a whole content
string, from depth zero with an empty stack. -/
def runScan (st : ScanState) (content : String) : ScanAcc :=
  (splitLinesAux [] content.toList).foldl scanLine ⟨0, [], [], st⟩

/-- scanCssContentForColors: clear the detected contexts and the contextual
registry unless merging, then run the pass.  (The fileName argument of the
source is unused by the scan itself and omitted.) -/
def scanCssContentForColors (st : ScanState) (content : String) (merge : Bool) :
    ScanState :=
  let st0 := if merge then st
             else { st with detectedContexts := [], contextualColorVariables := [] }
  (runScan st0 content).st

/-- The (variable, context) pairs stored by a scan, read off the trace. -/
def scanDefinedPairs (st : ScanState) (content : String) : List (String × String) :=
  ((runScan st content).trace).map (fun t => (t.1, t.2.1))

/-- Contextual-registry lookup of one variable in one context. -/
def ctxLookup (st : ScanState) (v ctx : String) : Option ColorWithContext :=
  (getJs st.contextualColorVariables v).bind (fun m => getJs m ctx)

/-- getColorForMode of colorDecorationProvider.ts: the requested context if
stored, else the first stored context, else none. -/
def getColorForMode (st : ScanState) (varName mode : String) : Option ParsedColor :=
  match getJs st.contextualColorVariables varName with
  | none => none
  | some contexts =>
    match getJs contexts mode with
    | some cc => some cc.color
    | none =>
      match contexts with
      | [] => none
      | first :: _ => some first.2.color

/-- The per-variable color selection of rebuildGlobalVariablesForMode: last
inserted context entry for auto, else the requested context with fallback to
the first entry. -/
def modeSelect (mode : String) (contexts : List (String × ColorWithContext)) :
    Option ParsedColor :=
  if mode = "auto" then (contexts.getLast?).map (fun p => p.2.color)
  else
    match getJs contexts mode with
    | some cc => some cc.color
    | none => (contexts.head?).map (fun p => p.2.color)

/-- One step of the rebuild loop over the contextual registry. -/
def rebuildStep (mode : String) (g : List (String × ParsedColor))
    (p : String × List (String × ColorWithContext)) : List (String × ParsedColor) :=
  match modeSelect mode p.2 with
  | some c => setJs g p.1 c
  | none => g

/-- rebuildGlobalVariablesForMode: clear the global registry, then refill it
from the contextual registry in insertion order. -/
def rebuildGlobalVariablesForMode (st : ScanState) (mode : String) : ScanState :=
  { st with globalColorVariables := st.contextualColorVariables.foldl (rebuildStep mode) [] }

/-- Code-unit comparison of strings, modelling localeCompare on the plain
ASCII context names that occur here. -/
def strLtList : List Char → List Char → Bool
  | [], [] => false
  | [], _ :: _ => true
  | _ :: _, [] => false
  | a :: as, b :: bs => if a = b then strLtList as bs else decide (a.val < b.val)

/-- Stable insertion into a list sorted by context name. -/
def insertSortedCtx (p : String × ParsedColor) :
    List (String × ParsedColor) → List (String × ParsedColor)
  | [] => [p]
  | q :: rest =>
    if strLtList q.1.toList p.1.toList then q :: insertSortedCtx p rest
    else p :: q :: rest

/-- Stable sort by context name, as Array.sort with the localeCompare
comparator. -/
def sortCtxList (l : List (String × ParsedColor)) : List (String × ParsedColor) :=
  l.foldr insertSortedCtx []

/-- getContextualColorsMap: the per-variable context breakdown, each list
sorted by context name. -/
def getContextualColorsMap (st : ScanState) : List (String × List (String × ParsedColor)) :=
  st.contextualColorVariables.map
    (fun p => (p.1, sortCtxList (p.2.map (fun q => (q.1, q.2.color)))))

/-! Lemmas about the JavaScript-Map association lists. -/

theorem keysOf_cons {α : Type} (p : String × α) (m : List (String × α)) :
    keysOf (p :: m) = p.1 :: keysOf m := rfl

theorem getJs_setJs_self {α : Type} (m : List (String × α)) (k : String) (v : α) :
    getJs (setJs m k v) k = some v := by
  induction m with
  | nil => simp [setJs, getJs]
  | cons p rest ih =>
    obtain ⟨k0, v0⟩ := p
    by_cases h : k0 = k <;> simp [setJs, getJs, h, ih]

theorem getJs_setJs_ne {α : Type} (m : List (String × α)) (k k2 : String) (v : α)
    (h : k2 ≠ k) : getJs (setJs m k v) k2 = getJs m k2 := by
  induction m with
  | nil => simp [setJs, getJs, Ne.symm h]
  | cons p rest ih =>
    obtain ⟨k0, v0⟩ := p
    by_cases h0 : k0 = k
    · subst h0
      simp [setJs, getJs, Ne.symm h]
    · simp [setJs, h0, getJs, ih]

theorem setJs_ne_nil {α : Type} (m : List (String × α)) (k : String) (v : α) :
    setJs m k v ≠ [] := by
  cases m with
  | nil => simp [setJs]
  | cons p rest =>
    obtain ⟨k0, v0⟩ := p
    by_cases h : k0 = k <;> simp [setJs, h]

theorem mem_setJs {α : Type} (m : List (String × α)) (k : String) (v : α)
    (p : String × α) (hp : p ∈ setJs m k v) : p ∈ m ∨ p = (k, v) := by
  induction m with
  | nil =>
    simp [setJs] at hp
    simp [hp]
  | cons q rest ih =>
    obtain ⟨k0, v0⟩ := q
    by_cases h : k0 = k
    · subst h
      simp [setJs] at hp
      rcases hp with hp | hp <;> simp [hp]
    · simp [setJs, h] at hp
      rcases hp with hp | hp
      · simp [hp]
      · rcases ih hp with hh | hh <;> simp [hh]

theorem keysOf_setJs_mem {α : Type} (m : List (String × α)) (k : String) (v : α)
    (h : k ∈ keysOf m) : keysOf (setJs m k v) = keysOf m := by
  induction m with
  | nil => simp [keysOf] at h
  | cons p rest ih =>
    obtain ⟨k0, v0⟩ := p
    by_cases h0 : k0 = k
    · simp [setJs, h0, keysOf_cons]
    · rw [keysOf_cons, List.mem_cons] at h
      rcases h with h | h
    
      · exact absurd h.symm h0
      · have := ih h
        simp [setJs, h0, keysOf_cons, this]

theorem keysOf_setJs_not_mem {α : Type} (m : List (String × α)) (k : String) (v : α)
    (h : k ∉ keysOf m) : keysOf (setJs m k v) = keysOf m ++ [k] := by
  induction m with
  | nil => simp [setJs, keysOf]
  | cons p rest ih =>
    obtain ⟨k0, v0⟩ := p
    rw [keysOf_cons, List.mem_cons] at h
    push_neg at h
    have h0 : k0 ≠ k := fun hh => h.1 hh.symm
    have := ih h.2
    simp [setJs, h0, keysOf_cons, this]

theorem setJs_of_not_mem {α : Type} (m : List (String × α)) (k : String) (v : α)
    (h : k ∉ keysOf m) : setJs m k v = m ++ [(k, v)] := by
  induction m with
  | nil => simp [setJs]
  | cons p rest ih =>
    obtain ⟨k0, v0⟩ := p
    rw [keysOf_cons, List.mem_cons] at h
    push_neg at h
    have h0 : k0 ≠ k := fun hh => h.1 hh.symm
    simp [setJs, h0]
    exact ih h.2

theorem nodupKeys_setJs {α : Type} (m : List (String × α)) (k : String) (v : α)
    (h : nodupKeys m) : nodupKeys (setJs m k v) := by
  by_cases hk : k ∈ keysOf m
  · unfold nodupKeys
    rw [keysOf_setJs_mem m k v hk]
    exact h
  · unfold nodupKeys
    rw [keysOf_setJs_not_mem m k v hk]
    simpa [List.nodup_append] using And.intro h hk

theorem getJs_none_of_not_mem {α : Type} (m : List (String × α)) (k : String)
    (h : k ∉ keysOf m) : getJs m k = none := by
  induction m with
  | nil => simp [getJs]
  | cons p rest ih =>
    obtain ⟨k0, v0⟩ := p
    rw [keysOf_cons, List.mem_cons] at h
    push_neg at h
    have h0 : k0 ≠ k := fun hh => h.1 hh.symm
    simp [getJs, h0]
    exact ih h.2

theorem getJs_isSome_setJs {α : Type} (m : List (String × α)) (k k2 : String) (v : α)
    (h : (getJs m k2).isSome = true) : (getJs (setJs m k v) k2).isSome = true := by
  by_cases hk : k2 = k
  · subst hk
    rw [getJs_setJs_self]
    rfl
  · rw [getJs_setJs_ne m k k2 v hk]
    exact h

theorem countKey_append {α : Type} (a b : List (String × α)) (k : String) :
    countKey (a ++ b) k = countKey a k + countKey b k := by
  simp [countKey, List.filter_append]

theorem countKey_eq_zero_of_not_mem {α : Type} (m : List (String × α)) (k : String)
    (h : k ∉ keysOf m) : countKey m k = 0 := by
  induction m with
  | nil => simp [countKey]
  | cons p rest ih =>
    obtain ⟨k0, v0⟩ := p
    rw [keysOf_cons, List.mem_cons] at h
    push_neg at h
    have h0 : k0 ≠ k := fun hh => h.1 hh.symm
    have := ih h.2
    simpa [countKey, h0] using this

theorem countKey_setJs_ne {α : Type} (m : List (String × α)) (k k2 : String) (v : α)
    (h : k2 ≠ k) : countKey (setJs m k v) k2 = countKey m k2 := by
  induction m with
  | nil => simp [setJs, countKey, Ne.symm h]
  | cons p rest ih =>
    obtain ⟨k0, v0⟩ := p
    by_cases h0 : k0 = k
    · subst h0
      simp [setJs, countKey, Ne.symm h]
    · have ih2 : countKey (setJs rest k v) k2 = countKey rest k2 := ih
      by_cases h2 : k0 = k2
      · subst h2
        simp [setJs, countKey, h0] at ih2 ⊢
        exact ih2
      · simp [setJs, countKey, h0, h2] at ih2 ⊢
        exact ih2

/-- Generic preservation of a predicate along List.foldl. -/
theorem foldlPreserve {α β : Type} (P : α → Prop) (f : α → β → α) (l : List β)
    (h : ∀ x b, P x → P (f x b)) :
    ∀ a, P a → P (l.foldl f a) := by
  induction l with
  | nil => intro a ha; simpa using ha
  | cons b rest ih =>
    intro a ha
    simpa using ih (f a b) (h a b ha)

/-! Lemmas about the rebuild loop. -/

theorem modeSelect_isSome (mode : String) (contexts : List (String × ColorWithContext))
    (h : contexts ≠ []) : (modeSelect mode contexts).isSome = true := by
  unfold modeSelect
  by_cases hm : mode = "auto"
  · cases contexts with
    | nil => exact absurd rfl h
    | cons p rest => simp [hm, List.getLast?_concat]
  · simp only [hm, if_false]
    cases hj : getJs contexts mode with
    | some cc => simp
    | none =>
      cases contexts with
      | nil => exact absurd rfl h
      | cons p rest => simp [hj]

theorem rebuildFold_not_mem (mode : String) (v : String) :
    ∀ (l : List (String × List (String × ColorWithContext)))
      (g : List (String × ParsedColor)), v ∉ keysOf l →
      getJs (l.foldl (rebuildStep mode) g) v = getJs g v := by
  intro l
  induction l with
  | nil => intro g _; rfl
  | cons p rest ih =>
    intro g hv
    rw [keysOf_cons, List.mem_cons] at hv
    push_neg at hv
    rw [List.foldl_cons, ih _ hv.2]
    unfold rebuildStep
    cases hs : modeSelect mode p.2 with
    | none => rfl
    | some c => exact getJs_setJs_ne _ _ _ _ hv.1

theorem rebuildFold_getJs (mode : String) (v : String) :
    ∀ (l : List (String × List (String × ColorWithContext)))
      (ctxs : List (String × ColorWithContext)) (g : List (String × ParsedColor)),
      nodupKeys l → getJs l v = some ctxs →
      getJs (l.foldl (rebuildStep mode) g) v =
        (match modeSelect mode ctxs with
         | some c => some c
         | none => getJs g v) := by
  intro l
  induction l with
  | nil => intro ctxs g _ hget; simp [getJs] at hget
  | cons p rest ih =>
    intro ctxs g hnd hget
    obtain ⟨k0, m0⟩ := p
    have hnd2 : nodupKeys rest := by
      unfold nodupKeys at hnd ⊢
      rw [keysOf_cons] at hnd
      exact (List.nodup_cons.mp hnd).2
    rw [List.foldl_cons]
    by_cases h0 : k0 = v
    · subst h0
      have hget2 : m0 = ctxs := by
        rw [getJs, if_pos rfl] at hget
        exact Option.some.inj hget
      subst hget2
      have hv : k0 ∉ keysOf rest := by
        unfold nodupKeys at hnd
        rw [keysOf_cons] at hnd
        exact (List.nodup_cons.mp hnd).1
      rw [rebuildFold_not_mem mode k0 rest _ hv]
      unfold rebuildStep
      cases hs : modeSelect mode m0 with
      | some c => simp [hs, getJs_setJs_self]
      | none => simp [hs]
    · rw [getJs, if_neg h0] at hget
      rw [ih ctxs (rebuildStep mode g (k0, m0)) hnd2 hget]
      cases hs : modeSelect mode ctxs with
      | some c => simp
      | none =>
        simp only []
        unfold rebuildStep
        cases hs2 : modeSelect mode m0 with
        | none => rfl
        | some c => exact getJs_setJs_ne _ _ _ _ (fun hh => h0 hh.symm)

theorem rebuild_getJs (st : ScanState) (mode v : String)
    (ctxs : List (String × ColorWithContext))
    (hnd : nodupKeys st.contextualColorVariables)
    (hget : getJs st.contextualColorVariables v = some ctxs) :
    getJs (rebuildGlobalVariablesForMode st mode).globalColorVariables v =
      modeSelect mode ctxs := by
  unfold rebuildGlobalVariablesForMode
  have h := rebuildFold_getJs mode v st.contextualColorVariables ctxs [] hnd hget
  simp only [] at h ⊢
  rw [h]
  cases modeSelect mode ctxs <;> rfl

theorem countKey_foldl_not_mem (mode : String) (v : String) :
    ∀ (l : List (String × List (String × ColorWithContext)))
      (g : List (String × ParsedColor)), v ∉ keysOf l →
      countKey (l.foldl (rebuildStep mode) g) v = countKey g v := by
  intro l
  induction l with
  | nil => intro g _; rfl
  | cons p rest ih =>
    intro g hv
    rw [keysOf_cons, List.mem_cons] at hv
    push_neg at hv
    rw [List.foldl_cons, ih _ hv.2]
    unfold rebuildStep
    cases hs : modeSelect mode p.2 with
    | none => rfl
    | some c => exact countKey_setJs_ne _ _ _ _ hv.1

theorem keysOf_rebuildStep (mode : String) (g : List (String × ParsedColor))
    (p : String × List (String × ColorWithContext)) :
    keysOf (rebuildStep mode g p) = keysOf g ∨
      keysOf (rebuildStep mode g p) = keysOf g ++ [p.1] := by
  unfold rebuildStep
  cases hs : modeSelect mode p.2 with
  | none => exact Or.inl rfl
  | some c =>
    by_cases hk : p.1 ∈ keysOf g
    · exact Or.inl (keysOf_setJs_mem g p.1 c hk)
    · exact Or.inr (keysOf_setJs_not_mem g p.1 c hk)

theorem countKey_rebuildStep_ne (mode : String) (g : List (String × ParsedColor))
    (p : String × List (String × ColorWithContext)) (v : String) (h : v ≠ p.1) :
    countKey (rebuildStep mode g p) v = countKey g v := by
  unfold rebuildStep
  cases hs : modeSelect mode p.2 with
  | none => rfl
  | some c => exact countKey_setJs_ne g p.1 v c h

theorem rebuildFold_count (mode : String) (v : String) :
    ∀ (l : List (String × List (String × ColorWithContext)))
      (g : List (String × ParsedColor)),
      nodupKeys l → (∀ p ∈ l, p.2 ≠ []) → v ∈ keysOf l → v ∉ keysOf g →
      countKey (l.foldl (rebuildStep mode) g) v = countKey g v + 1 := by
  intro l
  induction l with
  | nil => intro g _ _ hv _; simp [keysOf] at hv
  | cons p rest ih =>
    intro g hnd hne hv hg
    obtain ⟨k0, m0⟩ := p
    have hnd2 : nodupKeys rest := by
      unfold nodupKeys at hnd ⊢
      rw [keysOf_cons] at hnd
      exact (List.nodup_cons.mp hnd).2
    rw [List.foldl_cons]
    by_cases h0 : k0 = v
    · subst h0
      have hrest : k0 ∉ keysOf rest := by
        unfold nodupKeys at hnd
        rw [keysOf_cons] at hnd
        exact (List.nodup_cons.mp hnd).1
      have hm0 : m0 ≠ [] := hne (k0, m0) (List.mem_cons_self _ _)
      have hsel := modeSelect_isSome mode m0 hm0
      obtain ⟨c, hc⟩ := Option.isSome_iff_exists.mp hsel
      rw [countKey_foldl_not_mem mode k0 rest _ hrest]
      unfold rebuildStep
      rw [hc]
      show countKey (setJs g k0 c) k0 = countKey g k0 + 1
      rw [setJs_of_not_mem g k0 c hg, countKey_append]
      simp [countKey]
    · rw [keysOf_cons, List.mem_cons] at hv
      rcases hv with hv | hv
      · exact absurd hv.symm h0
      · have hvk : v ≠ k0 := Ne.symm h0
        have hg2 : v ∉ keysOf (rebuildStep mode g (k0, m0)) := by
          rcases keysOf_rebuildStep mode g (k0, m0) with hh | hh
          · rw [hh]; exact hg
          · rw [hh]; simp [hg, hvk]
        have hcg := countKey_rebuildStep_ne mode g (k0, m0) v hvk
        rw [ih (rebuildStep mode g (k0, m0)) hnd2 (fun p hp => hne p (List.mem_cons_of_mem _ hp)) hv hg2, hcg]

theorem rebuild_count (st : ScanState) (mode v : String)
    (hnd : nodupKeys st.contextualColorVariables)
    (hne : ∀ p ∈ st.contextualColorVariables, p.2 ≠ [])
    (hv : v ∈ keysOf st.contextualColorVariables) :
    countKey (rebuildGlobalVariablesForMode st mode).globalColorVariables v = 1 := by
  unfold rebuildGlobalVariablesForMode
  have h := rebuildFold_count mode v st.contextualColorVariables [] hnd hne hv (by simp [keysOf])
  simpa [countKey] using h

/-! Well-formedness of the contextual registry, preserved by scans. -/

/-- The structural invariant of the contextual registry: distinct variable
keys, and no variable with an empty context map (a context map is created
only when its first entry is inserted). -/
def ScanWF (st : ScanState) : Prop :=
  nodupKeys st.contextualColorVariables ∧
  ∀ p ∈ st.contextualColorVariables, p.2 ≠ []

theorem ScanWF_insert (ctx : String) (a : ScanAcc) (nv : String × List Char)
    (h : ScanWF a.st) : ScanWF (scanLineInsert ctx a nv).st := by
  unfold scanLineInsert
  cases hp : parseColorValue (String.mk (jsTrimList nv.2)) with
  | none => exact h
  | some color =>
    refine ⟨nodupKeys_setJs _ _ _ h.1, ?_⟩
    intro p hp2
    rcases mem_setJs _ _ _ p hp2 with hm | he
    · exact h.2 p hm
    · rw [he]
      exact setJs_ne_nil _ _ _

theorem ScanWF_scanLine (a : ScanAcc) (line : List Char)
    (h : ScanWF a.st) : ScanWF (scanLine a line).st := by
  have h2 : ∀ (defs : List (String × List Char)) (ctx : String) (x : ScanAcc),
      ScanWF x.st → ScanWF (defs.foldl (scanLineInsert ctx) x).st :=
    fun defs ctx x hx => foldlPreserve (fun y => ScanWF y.st) (scanLineInsert ctx) defs
      (fun y b hy => ScanWF_insert ctx y b hy) x hx
  exact h2 _ _ _ h

theorem ScanWF_runScan (st : ScanState) (content : String)
    (h : ScanWF st) : ScanWF (runScan st content).st := by
  unfold runScan
  exact foldlPreserve (fun a => ScanWF a.st) scanLine _
    (fun a b ha => ScanWF_scanLine a b ha) ⟨0, [], [], st⟩ h

theorem ScanWF_scan (st : ScanState) (content : String) (merge : Bool)
    (h : ScanWF st) : ScanWF (scanCssContentForColors st content merge) := by
  unfold scanCssContentForColors
  cases merge with
  | true => exact ScanWF_runScan st content h
  | false =>
    refine ScanWF_runScan _ content ?_
    exact ⟨List.nodup_nil, by intro p hp; simp at hp⟩

/-! The insertion trace and the frame property of merge scans. -/

/-- The (variable, context) pair of one trace entry. -/
def pairOfTrace (t : String × String × ParsedColor) : String × String :=
  (t.1, t.2.1)

theorem insert_trace_append (ctx : String) (a : ScanAcc) (nv : String × List Char) :
    ∃ t, (scanLineInsert ctx a nv).trace = a.trace ++ t := by
  unfold scanLineInsert
  cases hp : parseColorValue (String.mk (jsTrimList nv.2)) with
  | none => exact ⟨[], by simp⟩
  | some color => exact ⟨[(nv.1, ctx, color)], rfl⟩

theorem foldl_insert_trace_append (ctx : String) :
    ∀ (defs : List (String × List Char)) (a : ScanAcc),
      ∃ t, ((defs.foldl (scanLineInsert ctx) a)).trace = a.trace ++ t := by
  intro defs
  induction defs with
  | nil => intro a; exact ⟨[], by simp⟩
  | cons nv rest ih =>
    intro a
    obtain ⟨t1, h1⟩ := insert_trace_append ctx a nv
    obtain ⟨t2, h2⟩ := ih (scanLineInsert ctx a nv)
    exact ⟨t1 ++ t2, by rw [List.foldl_cons, h2, h1, List.append_assoc]⟩

theorem scanLine_trace_append (a : ScanAcc) (line : List Char) :
    ∃ t, (scanLine a line).trace = a.trace ++ t := by
  unfold scanLine
  exact foldl_insert_trace_append _ (lineVarDefs line) _

theorem foldl_lines_trace_append :
    ∀ (lines : List (List Char)) (a : ScanAcc),
      ∃ t, ((lines.foldl scanLine a)).trace = a.trace ++ t := by
  intro lines
  induction lines with
  | nil => intro a; exact ⟨[], by simp⟩
  | cons line rest ih =>
    intro a
    obtain ⟨t1, h1⟩ := scanLine_trace_append a line
    obtain ⟨t2, h2⟩ := ih (scanLine a line)
    exact ⟨t1 ++ t2, by rw [List.foldl_cons, h2, h1, List.append_assoc]⟩

theorem ctxLookup_insert_other (st2 st : ScanState) (n ctx v ctxq : String)
    (cc : ColorWithContext)
    (hcv : st2.contextualColorVariables =
      setJs st.contextualColorVariables n
        (setJs ((getJs st.contextualColorVariables n).getD []) ctx cc))
    (h : ¬(v = n ∧ ctxq = ctx)) :
    ctxLookup st2 v ctxq = ctxLookup st v ctxq := by
  unfold ctxLookup
  rw [hcv]
  by_cases hv : v = n
  · subst hv
    have hc : ctxq ≠ ctx := fun hh => h ⟨rfl, hh⟩
    rw [getJs_setJs_self]
    cases hg : getJs st.contextualColorVariables v with
    | some m0 => simp [hg, getJs_setJs_ne _ _ _ _ hc]
    | none => simp [hg, getJs_setJs_ne _ _ _ _ hc, getJs, Ne.symm hc]
  · rw [getJs_setJs_ne _ _ _ _ hv]

theorem insert_frame (v ctxq ctx : String) (a : ScanAcc) (nv : String × List Char)
    (h : (v, ctxq) ∉ ((scanLineInsert ctx a nv).trace).map pairOfTrace) :
    ctxLookup (scanLineInsert ctx a nv).st v ctxq = ctxLookup a.st v ctxq := by
  unfold scanLineInsert at h ⊢
  cases hp : parseColorValue (String.mk (jsTrimList nv.2)) with
  | none => rfl
  | some color =>
    rw [hp] at h
    simp only [List.map_append, List.mem_append] at h
    push_neg at h
    have hne : ¬(v = nv.1 ∧ ctxq = ctx) := by
      rintro ⟨rfl, rfl⟩
      exact h.2 (by simp [pairOfTrace])
    exact ctxLookup_insert_other _ a.st nv.1 ctx v ctxq ⟨color, ctx⟩ rfl hne

theorem foldl_insert_frame (v ctxq ctx : String) :
    ∀ (defs : List (String × List Char)) (a : ScanAcc),
      (v, ctxq) ∉ ((defs.foldl (scanLineInsert ctx) a).trace).map pairOfTrace →
      ctxLookup (defs.foldl (scanLineInsert ctx) a).st v ctxq = ctxLookup a.st v ctxq := by
  intro defs
  induction defs with
  | nil => intro a _; rfl
  | cons nv rest ih =>
    intro a h
    rw [List.foldl_cons] at h ⊢
    have hstep : (v, ctxq) ∉ ((scanLineInsert ctx a nv).trace).map pairOfTrace := by
      obtain ⟨t, ht⟩ := foldl_insert_trace_append ctx rest (scanLineInsert ctx a nv)
      rw [ht, List.map_append] at h
      intro hm
      exact h (List.mem_append_left _ hm)
    rw [ih (scanLineInsert ctx a nv) h]
    exact insert_frame v ctxq ctx a nv hstep

theorem scanLine_frame (v ctxq : String) (a : ScanAcc) (line : List Char)
    (h : (v, ctxq) ∉ ((scanLine a line).trace).map pairOfTrace) :
    ctxLookup (scanLine a line).st v ctxq = ctxLookup a.st v ctxq := by
  unfold scanLine at h ⊢
  exact foldl_insert_frame v ctxq _ (lineVarDefs line) _ h

theorem foldl_lines_frame (v ctxq : String) :
    ∀ (lines : List (List Char)) (a : ScanAcc),
      (v, ctxq) ∉ ((lines.foldl scanLine a).trace).map pairOfTrace →
      ctxLookup (lines.foldl scanLine a).st v ctxq = ctxLookup a.st v ctxq := by
  intro lines
  induction lines with
  | nil => intro a _; rfl
  | cons line rest ih =>
    intro a h
    rw [List.foldl_cons] at h ⊢
    have hstep : (v, ctxq) ∉ ((scanLine a line).trace).map pairOfTrace := by
      obtain ⟨t, ht⟩ := foldl_lines_trace_append rest (scanLine a line)
      rw [ht, List.map_append] at h
      intro hm
      exact h (List.mem_append_left _ hm)
    rw [ih (scanLine a line) h]
    exact scanLine_frame v ctxq a line hstep

theorem scanMerge_frame (st : ScanState) (content : String) (v ctxq : String)
    (h : (v, ctxq) ∉ scanDefinedPairs st content) :
    ctxLookup (scanCssContentForColors st content true) v ctxq = ctxLookup st v ctxq := by
  unfold scanCssContentForColors
  unfold scanDefinedPairs runScan at h
  exact foldl_lines_frame v ctxq (splitLinesAux [] content.toList) ⟨0, [], [], st⟩ h

/-! Replace-scan results do not depend on the incoming global registry. -/

/-- Agreement of two scan accumulators on everything except the global
registry. -/
def CtxRel (a b : ScanAcc) : Prop :=
  a.depth = b.depth ∧ a.stack = b.stack ∧ a.trace = b.trace ∧
  a.st.contextualColorVariables = b.st.contextualColorVariables ∧
  a.st.detectedContexts = b.st.detectedContexts

theorem CtxRel_insert (ctx : String) (nv : String × List Char) (a b : ScanAcc)
    (h : CtxRel a b) : CtxRel (scanLineInsert ctx a nv) (scanLineInsert ctx b nv) := by
  obtain ⟨h1, h2, h3, h4, h5⟩ := h
  unfold scanLineInsert
  cases hp : parseColorValue (String.mk (jsTrimList nv.2)) with
  | none => exact ⟨h1, h2, h3, h4, h5⟩
  | some color => exact ⟨h1, h2, by rw [h3], by rw [h4], h5⟩

theorem CtxRel_foldl_insert (ctx : String) :
    ∀ (defs : List (String × List Char)) (a b : ScanAcc), CtxRel a b →
      CtxRel (defs.foldl (scanLineInsert ctx) a) (defs.foldl (scanLineInsert ctx) b) := by
  intro defs
  induction defs with
  | nil => intro a b h; exact h
  | cons nv rest ih =>
    intro a b h
    rw [List.foldl_cons, List.foldl_cons]
    exact ih _ _ (CtxRel_insert ctx nv a b h)

theorem CtxRel_foldl_insert2 (ctx ctx2 : String) (hc : ctx = ctx2)
    (defs : List (String × List Char)) (a b : ScanAcc) (h : CtxRel a b) :
    CtxRel (defs.foldl (scanLineInsert ctx) a) (defs.foldl (scanLineInsert ctx2) b) := by
  subst hc
  exact CtxRel_foldl_insert ctx defs a b h

theorem CtxRel_scanLine (line : List Char) (a b : ScanAcc)
    (h : CtxRel a b) : CtxRel (scanLine a line) (scanLine b line) := by
  obtain ⟨h1, h2, h3, h4, h5⟩ := h
  have hpr : scanLinePush line a.depth a.stack a.st.detectedContexts
      = scanLinePush line b.depth b.stack b.st.detectedContexts := by
    rw [h1, h2, h5]
  have hrel1 : CtxRel
      { a with stack := (scanLinePush line a.depth a.stack a.st.detectedContexts).1,
               st := { a.st with
                 detectedContexts := (scanLinePush line a.depth a.stack a.st.detectedContexts).2 } }
      { b with stack := (scanLinePush line b.depth b.stack b.st.detectedContexts).1,
               st := { b.st with
                 detectedContexts := (scanLinePush line b.depth b.stack b.st.detectedContexts).2 } } :=
    ⟨h1, by rw [hpr], h3, h4, by rw [hpr]⟩
  have hctx : currentCtxOf (scanLinePush line a.depth a.stack a.st.detectedContexts).1
      = currentCtxOf (scanLinePush line b.depth b.stack b.st.detectedContexts).1 := by
    rw [hpr]
  have h6 := CtxRel_foldl_insert2 _ _ hctx (lineVarDefs line) _ _ hrel1
  have hdep : depthUpd line a.depth (scanLinePush line a.depth a.stack a.st.detectedContexts).1
      = depthUpd line b.depth (scanLinePush line b.depth b.stack b.st.detectedContexts).1 := by
    rw [hpr, h1]
  exact ⟨congrArg Prod.fst hdep, congrArg Prod.snd hdep,
    h6.2.2.1, h6.2.2.2.1, h6.2.2.2.2⟩

theorem CtxRel_foldl_lines :
    ∀ (lines : List (List Char)) (a b : ScanAcc), CtxRel a b →
      CtxRel (lines.foldl scanLine a) (lines.foldl scanLine b) := by
  intro lines
  induction lines with
  | nil => intro a b h; exact h
  | cons line rest ih =>
    intro a b h
    rw [List.foldl_cons, List.foldl_cons]
    exact ih _ _ (CtxRel_scanLine line a b h)

theorem runScan_ctx_congr (st1 st2 : ScanState) (content : String)
    (hc : st1.contextualColorVariables = st2.contextualColorVariables)
    (hd : st1.detectedContexts = st2.detectedContexts) :
    (runScan st1 content).st.contextualColorVariables
      = (runScan st2 content).st.contextualColorVariables ∧
    (runScan st1 content).st.detectedContexts = (runScan st2 content).st.detectedContexts := by
  unfold runScan
  have h := CtxRel_foldl_lines (splitLinesAux [] content.toList)
    ⟨0, [], [], st1⟩ ⟨0, [], [], st2⟩ ⟨rfl, rfl, rfl, hc, hd⟩
  exact ⟨h.2.2.2.1, h.2.2.2.2⟩

/-! Brace-depth nonnegativity. -/

theorem closeSteps_depth_nonneg :
    ∀ (k : ℕ) (d : ℤ) (s : List (String × ℤ)), 0 ≤ d → 0 ≤ (closeSteps k d s).1 := by
  intro k
  induction k with
  | zero => intro d s hd; exact hd
  | succ n ih =>
    intro d s _
    exact ih _ _ (le_max_left 0 (d - 1))

theorem scanLine_depth_nonneg (a : ScanAcc) (line : List Char)
    (h : 0 ≤ a.depth) : 0 ≤ (scanLine a line).depth := by
  show 0 ≤ (depthUpd line a.depth
    (scanLinePush line a.depth a.stack a.st.detectedContexts).1).1
  unfold depthUpd
  refine closeSteps_depth_nonneg _ _ _ ?_
  have hb : (0 : ℤ) ≤ (line.count '\x7b' : ℤ) := Int.ofNat_nonneg _
  omega

theorem runScan_depth_nonneg (st : ScanState) (content : String) :
    0 ≤ (runScan st content).depth := by
  unfold runScan
  exact foldlPreserve (fun a => 0 ≤ a.depth) scanLine _
    (fun a b ha => scanLine_depth_nonneg a b ha) ⟨0, [], [], st⟩ le_rfl

/-! Scans never remove entries of the global registry. -/

theorem insert_global_isSome (ctx : String) (v : String) (a : ScanAcc)
    (nv : String × List Char)
    (h : (getJs a.st.globalColorVariables v).isSome = true) :
    (getJs (scanLineInsert ctx a nv).st.globalColorVariables v).isSome = true := by
  unfold scanLineInsert
  cases hp : parseColorValue (String.mk (jsTrimList nv.2)) with
  | none => exact h
  | some color => exact getJs_isSome_setJs _ _ _ _ h

theorem scanLine_global_isSome (v : String) (a : ScanAcc) (line : List Char)
    (h : (getJs a.st.globalColorVariables v).isSome = true) :
    (getJs (scanLine a line).st.globalColorVariables v).isSome = true := by
  have h2 : ∀ (defs : List (String × List Char)) (ctx : String) (x : ScanAcc),
      (getJs x.st.globalColorVariables v).isSome = true →
      (getJs ((defs.foldl (scanLineInsert ctx) x)).st.globalColorVariables v).isSome = true :=
    fun defs ctx x hx =>
      foldlPreserve (fun y => (getJs y.st.globalColorVariables v).isSome = true)
        (scanLineInsert ctx) defs (fun y b hy => insert_global_isSome ctx v y b hy) x hx
  exact h2 _ _ _ h

theorem scan_global_isSome (st : ScanState) (content : String) (merge : Bool) (v : String)
    (h : (getJs st.globalColorVariables v).isSome = true) :
    (getJs (scanCssContentForColors st content merge).globalColorVariables v).isSome = true := by
  unfold scanCssContentForColors runScan
  cases merge with
  | true =>
    exact foldlPreserve (fun a => (getJs a.st.globalColorVariables v).isSome = true)
      scanLine _ (fun a b ha => scanLine_global_isSome v a b ha) ⟨0, [], [], st⟩ h
  | false =>
    exact foldlPreserve (fun a => (getJs a.st.globalColorVariables v).isSome = true)
      scanLine _ (fun a b ha => scanLine_global_isSome v a b ha)
      ⟨0, [], [], { st with detectedContexts := [], contextualColorVariables := [] }⟩ h

/-! Coherence of the normalized-map cache and purity of the resolver. -/

/-- The cache is not stale for a given map: whenever the recorded source
identity is this map, the cached contents are the normalization of the map
contents as they stand now.  This holds when the cache is empty, when it was
built from a different map object, or when the map has not been mutated in
place since the cache was built from it. -/
def cacheCoherent (m : JsMapRef) (c : TwCache) : Prop :=
  c.cacheSource = some m.refId → c.cacheMap = some (normalizeEntries m.entries)

instance (m : JsMapRef) (c : TwCache) : Decidable (cacheCoherent m c) := by
  unfold cacheCoherent; infer_instance

instance (st : ScanState) : Decidable (ScanWF st) := by
  unfold ScanWF; infer_instance

theorem buildNM_coherent (m : JsMapRef) (c : TwCache) (h : cacheCoherent m c) :
    (buildNormalizedMap m c).1 = normalizeEntries m.entries := by
  unfold buildNormalizedMap
  cases hm : c.cacheMap with
  | none => cases hs : c.cacheSource <;> rfl
  | some nm =>
    cases hs : c.cacheSource with
    | none => rfl
    | some src =>
      by_cases he : src = m.refId
      · subst he
        simp only [if_pos rfl]
        have h2 := h (by rw [hs])
        rw [hm] at h2
        exact Option.some.inj h2
      · simp only [if_neg he]

theorem resolve_eq_pure (pal : TwPalette) (name : String) (m : JsMapRef) (c : TwCache)
    (h : cacheCoherent m c) :
    (resolveTailwindColor pal name m c).1 = resolvePureAux pal name m.entries := by
  unfold resolveTailwindColor resolvePureAux
  have hb := buildNM_coherent m c h
  cases h1 : getJs m.entries ("--" ++ name) with
  | some cc => rfl
  | none =>
    cases h2 : (if strStartsWith name "txt-" then
        getJs m.entries ("--text-" ++ String.mk (name.toList.drop 4))
      else none) with
    | some cc => rfl
    | none =>
      simp only [hb]
      cases h3 : (getJs (normalizeEntries m.entries) (jsNormalize name)).orElse
          (fun _ => getJs (normalizeEntries m.entries)
            (replaceFirstSub (jsNormalize name) "txt-" "text-")) with
      | some cc => rfl
      | none =>
        cases h4 : lastDashSplit name with
        | some fs =>
          dsimp only
          cases h5 : pal fs.1 fs.2 with
          | some tc => rfl
          | none => cases h6 : pal name "500" <;> rfl
        | none =>
          dsimp only
          cases h6 : pal name "500" <;> rfl

/-! Concrete states used by the claims. -/

/-- The color 1 2 3 as parsed from a definition value. -/
def colA123 : ParsedColor := ⟨1, 2, 3, none, "1 2 3"⟩

/-- The color 4 5 6 as parsed from a definition value. -/
def colA456 : ParsedColor := ⟨4, 5, 6, none, "4 5 6"⟩

/-- The color 7 8 9 as parsed from a definition value. -/
def colA789 : ParsedColor := ⟨7, 8, 9, none, "7 8 9"⟩

/-- The color 10 20 30 as parsed from a definition value. -/
def colTxtPrimary : ParsedColor := ⟨10, 20, 30, none, "10 20 30"⟩

/-- The single-line test input of the specification: both class blocks on
one line. -/
def specInputOneLine : String :=
  ".light \x7b --a: 1 2 3; \x7d .dark \x7b --a: 4 5 6; \x7d"

/-- Registry after a replace-scan of the single-line input. -/
def specStateOneLine : ScanState :=
  scanCssContentForColors emptyScanState specInputOneLine false

/-- The same two class blocks, each on its own lines. -/
def specInputMultiLine : String :=
  ".light \x7b\n  --a: 1 2 3;\n\x7d\n.dark \x7b\n  --a: 4 5 6;\n\x7d"

/-- Registry after a replace-scan of the newline-separated input. -/
def specStateMultiLine : ScanState :=
  scanCssContentForColors emptyScanState specInputMultiLine false

/-- Light block, dark block, then a second light block redefining the same
variable. -/
def specInputRedefine : String :=
  ".light \x7b\n  --a: 1 2 3;\n\x7d\n.dark \x7b\n  --a: 4 5 6;\n\x7d\n.light \x7b\n  --a: 7 8 9;\n\x7d"

/-- Registry after a replace-scan of the redefinition input. -/
def specStateRedefine : ScanState :=
  scanCssContentForColors emptyScanState specInputRedefine false

/-- The color of the textually last successfully parsed definition of a
variable in a replace-scan of a content string, read off the insertion
trace. -/
def lastParsedDef (content : String) (v : String) : Option ParsedColor :=
  ((((runScan emptyScanState content).trace).filter (fun t => t.1 = v)).getLast?).map
    (fun t => t.2.2)

/-- An empty static palette table. -/
def palEmpty : TwPalette := fun _ _ => none

/-- The mutated-cache scenario: a registry born with an uppercase variable. -/
def regOrig : JsMapRef := ⟨0, [("--MY_COLOR", colA123)]⟩

/-- The color 9 9 9 written into the registry by a later mutation. -/
def colB999 : ParsedColor := ⟨9, 9, 9, none, "9 9 9"⟩

/-- The cache state after one resolver call against regOrig. -/
def cacheAfterFirst : TwCache :=
  (resolveTailwindColor palEmpty "my-color" regOrig emptyTwCache).2

/-- regOrig after an in-place mutation: same object identity, new contents. -/
def regMutated : JsMapRef := ⟨0, [("--MY_COLOR", colB999)]⟩

/-- A fresh registry object holding the same contents as regMutated. -/
def regReplaced : JsMapRef := ⟨1, [("--MY_COLOR", colB999)]⟩

/-- File A of the merge scenario: defines the variable only in light. -/
def mergeFileA : String := ".light \x7b --x: 1 2 3; \x7d"

/-- File B of the merge scenario: defines the variable only in dark. -/
def mergeFileB : String := ".dark \x7b --x: 4 5 6; \x7d"

/-- Registry after merge-scanning file A then file B from a cleared state. -/
def mergeTwoFiles : ScanState :=
  scanCssContentForColors (scanCssContentForColors emptyScanState mergeFileA true)
    mergeFileB true

/-- A stray closing brace before any opening brace, then a valid block. -/
def strayBraceInput : String := "\x7d\n.light \x7b\n  --a: 1 2 3;\n\x7d"

/-- Registry after a replace-scan of the stray-brace input. -/
def strayBraceState : ScanState :=
  scanCssContentForColors emptyScanState strayBraceInput false

/-! The claims. -/

/-- Claim C1, counterexample: on the single-line input of the specification,
colorForMode for the light context returns the color 4 5 6, not the claimed
1 2 3 — because both selectors sit on one line, the one-dot heuristic records
no context at all, so the lookup falls back to the only stored (global)
entry. -/
theorem c1_counterexample :
    getColorForMode specStateOneLine "--a" "light" = some colA456 ∧
    decide (getColorForMode specStateOneLine "--a" "light" = some colA123) = false := by
  decide

/-- Claim C1, amended: on the single-line input both selectors share a line,
so no context is recorded and every query falls back to the single global
entry 4 5 6 (light included); with each block on its own lines, the
originally claimed values hold: light gives 1 2 3, dark gives 4 5 6, and the
auto-mode active value is 4 5 6 (last defined wins). -/
theorem c1_theorem :
    (getColorForMode specStateOneLine "--a" "light" = some colA456 ∧
     getColorForMode specStateOneLine "--a" "dark" = some colA456 ∧
     getJs (rebuildGlobalVariablesForMode specStateOneLine "auto").globalColorVariables
       "--a" = some colA456) ∧
    (getColorForMode specStateMultiLine "--a" "light" = some colA123 ∧
     getColorForMode specStateMultiLine "--a" "dark" = some colA456 ∧
     getJs (rebuildGlobalVariablesForMode specStateMultiLine "auto").globalColorVariables
       "--a" = some colA456) := by
  decide

/-- Claim C2, counterexample: after a resolver call builds the normalized-map
cache from a registry, mutating that registry in place (same object identity,
new contents) leaves the cache stale — a call against the mutated registry
returns the old color 1 2 3 while a call against a fresh registry with
identical contents returns the current color 9 9 9.  Two calls with the same
color name and registries holding the same (variable, color) contents thus
disagree, refuting purity as claimed. -/
theorem c2_counterexample :
    (resolveTailwindColor palEmpty "my-color" regOrig emptyTwCache).1 = some colA123 ∧
    (resolveTailwindColor palEmpty "my-color" regMutated cacheAfterFirst).1 = some colA123 ∧
    (resolveTailwindColor palEmpty "my-color" regReplaced cacheAfterFirst).1 = some colB999 ∧
    regMutated.entries = regReplaced.entries ∧
    decide ((resolveTailwindColor palEmpty "my-color" regMutated cacheAfterFirst).1
      = (resolveTailwindColor palEmpty "my-color" regReplaced cacheAfterFirst).1) = false := by
  decide

/-- Claim C2, amended: resolveTailwindColor is a pure function of the color
name, the registry contents and the static palette, provided the cache is
not stale for the registry passed (cacheCoherent: whenever the cached source
identity is this registry object, the cached map is the normalization of its
current contents — true in particular whenever the registry is replaced
rather than mutated in place).  Under that proviso two calls with the same
color name and equal registry contents return the same color. -/
theorem c2_theorem (pal : TwPalette) (name : String) (m1 m2 : JsMapRef)
    (c1 c2 : TwCache) (he : m1.entries = m2.entries)
    (h1 : cacheCoherent m1 c1) (h2 : cacheCoherent m2 c2) :
    (resolveTailwindColor pal name m1 c1).1 = (resolveTailwindColor pal name m2 c2).1 := by
  rw [resolve_eq_pure pal name m1 c1 h1, resolve_eq_pure pal name m2 c2 h2, he]

/-- Claim C2, witness: the amended purity theorem applied to two fresh
registry objects with identical contents and empty caches. -/
theorem c2_witness :
    (resolveTailwindColor palEmpty "my-color" regReplaced emptyTwCache).1
      = (resolveTailwindColor palEmpty "my-color" ⟨2, [("--MY_COLOR", colB999)]⟩
          emptyTwCache).1 :=
  c2_theorem palEmpty "my-color" regReplaced ⟨2, [("--MY_COLOR", colB999)]⟩
    emptyTwCache emptyTwCache rfl (by decide) (by decide)

/-- Claim C3, counterexample: scanning light, dark, then a light block that
redefines the variable, the auto-mode active color is 4 5 6 (dark), not the
color 7 8 9 of the textually last parsed definition — a redefinition in a
context first inserted earlier updates that context entry in place, and the
Map insertion order used by the auto rebuild keeps the original position. -/
theorem c3_counterexample :
    getJs (rebuildGlobalVariablesForMode specStateRedefine "auto").globalColorVariables
      "--a" = some colA456 ∧
    lastParsedDef specInputRedefine "--a" = some colA789 ∧
    decide (getJs (rebuildGlobalVariablesForMode specStateRedefine "auto").globalColorVariables
      "--a" = lastParsedDef specInputRedefine "--a") = false := by
  decide

/-- Claim C3, amended: after rebuildGlobalVariablesForMode with mode auto,
the active color of every variable is the color of the last entry of its
stored context list — the context whose first insertion was latest, carrying
that context's most recent value — not the textually last definition across
the corpus. -/
theorem c3_theorem (st : ScanState) (v : String)
    (ctxs : List (String × ColorWithContext))
    (hnd : nodupKeys st.contextualColorVariables)
    (hget : getJs st.contextualColorVariables v = some ctxs) :
    getJs (rebuildGlobalVariablesForMode st "auto").globalColorVariables v
      = (ctxs.getLast?).map (fun p => p.2.color) := by
  rw [rebuild_getJs st "auto" v ctxs hnd hget]
  simp [modeSelect]

/-- Claim C3, witness: the amended auto-rebuild theorem applied to the
redefinition state, whose stored context list for the variable is the light
entry (updated in place to 7 8 9) followed by the dark entry 4 5 6. -/
theorem c3_witness :
    getJs (rebuildGlobalVariablesForMode specStateRedefine "auto").globalColorVariables
      "--a"
      = (([("light", (⟨colA789, "light"⟩ : ColorWithContext)),
          ("dark", (⟨colA456, "dark"⟩ : ColorWithContext))].getLast?).map
          (fun p => p.2.color)) :=
  c3_theorem specStateRedefine "--a"
    [("light", ⟨colA789, "light"⟩), ("dark", ⟨colA456, "dark"⟩)]
    (by decide) (by decide)

/-- Claim C4: evaluation at the failing input.  The value 0 0 0 / . matches
the parser regex (the alpha token is drawn from the digits-and-dots class),
parseFloat of a lone dot is NaN, and NaN satisfies neither of the range
comparisons, so parseColorValue returns a color carrying a NaN alpha instead
of the none the claim (and the validation comment in the source) requires. -/
theorem c4_theorem :
    parseColorValue "0 0 0 / ." = some ⟨0, 0, 0, some JsNum.nan, "0 0 0 / ."⟩ := by
  decide

/-- Claim C5: the resolver priority.  Scanning the definition of the custom
variable yields a registry whose only entry is that variable, and for every
static palette table and every cache state, resolveTailwindColor on the
matching color name returns the registry color 10 20 30 through the exact
first-strategy lookup, never falling through to the palette. -/
theorem c5_theorem :
    (scanCssContentForColors emptyScanState "--txt-primary: 10 20 30;"
        false).globalColorVariables = [("--txt-primary", colTxtPrimary)] ∧
    ∀ (palette : TwPalette) (cache : TwCache),
      (resolveTailwindColor palette "txt-primary"
        ⟨0, [("--txt-primary", colTxtPrimary)]⟩ cache).1 = some colTxtPrimary :=
  ⟨by decide, fun _ _ => rfl⟩

/-- Claim C6: merge accumulation.  Concretely: from a cleared state, a merge
scan of a file defining the variable only in light followed by a merge scan
of a file defining it only in dark leaves a context breakdown holding both
entries.  Generally: a merge scan never removes or alters a contextual-
registry entry for any (variable, context) pair that its own input does not
define (does not appear in its insertion trace). -/
theorem c6_theorem :
    (getJs (getContextualColorsMap mergeTwoFiles) "--x"
        = some [("dark", colA456), ("light", colA123)] ∧
     ctxLookup mergeTwoFiles "--x" "light" = some ⟨colA123, "light"⟩ ∧
     ctxLookup mergeTwoFiles "--x" "dark" = some ⟨colA456, "dark"⟩) ∧
    ∀ (st : ScanState) (content : String) (v ctxq : String),
      (v, ctxq) ∉ scanDefinedPairs st content →
      ctxLookup (scanCssContentForColors st content true) v ctxq = ctxLookup st v ctxq :=
  ⟨by decide, fun st content v ctxq h => scanMerge_frame st content v ctxq h⟩

/-- Claim C6, witness: the frame part applied concretely — merge-scanning
file B (which defines only the dark entry) leaves the light entry of the
variable untouched. -/
theorem c6_witness :
    ctxLookup mergeTwoFiles "--x" "light"
      = ctxLookup (scanCssContentForColors emptyScanState mergeFileA true) "--x" "light" :=
  c6_theorem.2 (scanCssContentForColors emptyScanState mergeFileA true) mergeFileB
    "--x" "light" (by decide)

/-- Claim C7: idempotence of the replace-scan.  Running a replace-scan twice
with identical content leaves the contextual registry (with its per-variable
insertion order) and the detected-contexts set identical to the state after
one run — both runs start from a cleared contextual registry and detected
set, and neither component depends on the incoming global registry. -/
theorem c7_theorem (st : ScanState) (content : String) :
    (scanCssContentForColors (scanCssContentForColors st content false) content
        false).contextualColorVariables
      = (scanCssContentForColors st content false).contextualColorVariables ∧
    (scanCssContentForColors (scanCssContentForColors st content false) content
        false).detectedContexts
      = (scanCssContentForColors st content false).detectedContexts := by
  unfold scanCssContentForColors
  exact runScan_ctx_congr _ _ content rfl rfl

/-- Claim C8: scan totality and brace-depth safety.  The scan is a total
function by construction; the brace depth is clamped at zero for every input
(never negative after processing any content), and on the concrete input
with a stray closing brace before any opening brace the following valid
block still parses: its variable is attributed to the light context and the
context is detected. -/
theorem c8_theorem :
    (∀ (st : ScanState) (content : String), 0 ≤ (runScan st content).depth) ∧
    ctxLookup strayBraceState "--a" "light" = some ⟨colA123, "light"⟩ ∧
    strayBraceState.detectedContexts = ["light"] :=
  ⟨fun st content => runScan_depth_nonneg st content, by decide, by decide⟩

/-- Claim C9: rebuild invariant.  Scans preserve the structural invariant
that the contextual registry has distinct variable keys and no variable with
an empty context map (a context map is created only when its first entry is
inserted); and under that invariant, after rebuildGlobalVariablesForMode
with any mode string, every variable of the contextual registry has exactly
one entry in the global registry. -/
theorem c9_theorem :
    (∀ (st : ScanState) (content : String) (merge : Bool),
       ScanWF st → ScanWF (scanCssContentForColors st content merge)) ∧
    ∀ (st : ScanState) (mode v : String), ScanWF st →
      v ∈ keysOf st.contextualColorVariables →
      countKey (rebuildGlobalVariablesForMode st mode).globalColorVariables v = 1 :=
  ⟨fun st content merge h => ScanWF_scan st content merge h,
   fun st mode v h hv => rebuild_count st mode v h.1 h.2 hv⟩

/-- Claim C9, witness: the rebuild invariant applied to the concrete
two-context state for an arbitrary named mode. -/
theorem c9_witness :
    countKey (rebuildGlobalVariablesForMode specStateMultiLine "auto").globalColorVariables
      "--a" = 1 :=
  c9_theorem.2 specStateMultiLine "auto" "--a" (by decide) (by decide)

/-- Claim C10: scans never remove global-registry entries.  Every variable
with an entry in the global registry before a scan (merge or replace) still
has an entry afterwards — scans only add or overwrite global entries; and a
replace-scan clears only the detected-contexts set and the contextual
registry: its result does not depend on the incoming values of those two
components at all. -/
theorem c10_theorem :
    (∀ (st : ScanState) (content : String) (merge : Bool) (v : String),
       (getJs st.globalColorVariables v).isSome = true →
       (getJs (scanCssContentForColors st content merge).globalColorVariables v).isSome
         = true) ∧
    ∀ (st : ScanState) (content : String),
      scanCssContentForColors st content false
        = scanCssContentForColors ⟨st.globalColorVariables, [], []⟩ content false :=
  ⟨fun st content merge v h => scan_global_isSome st content merge v h,
   fun _ _ => rfl⟩

/-- Claim C10, witness: a replace-scan of unrelated content (here the empty
string) keeps the previously registered variable in the global registry. -/
theorem c10_witness :
    (getJs (scanCssContentForColors specStateMultiLine "" false).globalColorVariables
      "--a").isSome = true :=
  c10_theorem.1 specStateMultiLine "" false "--a" (by decide)

end TrueColors
